import Mathlib

/-!
Verification of the hstdb daemon core against its source.

The development shallowly embeds the parts of the repository that the
properties below are about:

* the bincode wire codec used by `src/client.rs` (encode) and
  `src/server/mod.rs::Server::process` (decode), at the byte level;
* the pending-session database `src/server/db.rs` over association lists
  (the two sled trees keyed by the serialized 16-byte session id);
* the message handlers of `src/server/mod.rs` (`command_start`,
  `command_finished`, `disable_session`, `enable_session`) in explicit
  state-passing style, together with the processor's drain loop;
* the index store write path of `src/store/mod.rs` and the filter of
  `src/store/filter.rs`, with Rust strings embedded as `List Char`.

Machine bytes are `Nat` (values < 256 where it matters), Rust `u16` is a
`Nat` below 2 ^ 16.
-/

namespace Hstdb

/-! ## Wire codec (src/client.rs, src/server/mod.rs, src/message.rs)

`bincode::config::standard()` uses little-endian variable-length integer
encoding: an unsigned value below 251 is one byte; below 2 ^ 16 it is the
marker byte 251 followed by two little-endian bytes; below 2 ^ 32 the
marker 252 and four bytes; otherwise the marker 253 and eight bytes
(u64 values).  Strings and byte slices are length-prefixed (length as a
u64 varint) followed by the raw bytes.  A serde enum is encoded as its
u32 variant index (varint) followed by the payload fields in declared
order.  `Uuid` serializes as a 16-byte slice, `DateTime<Utc>` and
`PathBuf` as strings; in the embedding those fields carry their wire
bytes directly. -/

/-- bincode variable-length encoding of an unsigned integer
(faithful for values below 2 ^ 64, the range of Rust lengths). -/
def varintEnc (n : Nat) : List Nat :=
  if n < 251 then [n]
  else if n < 2 ^ 16 then [251, n % 256, n / 256 % 256]
  else if n < 2 ^ 32 then
    [252, n % 256, n / 2 ^ 8 % 256, n / 2 ^ 16 % 256, n / 2 ^ 24 % 256]
  else
    [253, n % 256, n / 2 ^ 8 % 256, n / 2 ^ 16 % 256, n / 2 ^ 24 % 256,
     n / 2 ^ 32 % 256, n / 2 ^ 40 % 256, n / 2 ^ 48 % 256, n / 2 ^ 56 % 256]

/-- bincode variable-length decoding; returns the value and the
remaining bytes. -/
def varintDec : List Nat → Option (Nat × List Nat)
  | [] => none
  | b :: rest =>
    if b < 251 then some (b, rest)
    else if b = 251 then
      match rest with
      | b0 :: b1 :: r => some (b0 + 256 * b1, r)
      | _ => none
    else if b = 252 then
      match rest with
      | b0 :: b1 :: b2 :: b3 :: r =>
        some (b0 + 256 * b1 + 2 ^ 16 * b2 + 2 ^ 24 * b3, r)
      | _ => none
    else if b = 253 then
      match rest with
      | b0 :: b1 :: b2 :: b3 :: b4 :: b5 :: b6 :: b7 :: r =>
        some (b0 + 2 ^ 8 * b1 + 2 ^ 16 * b2 + 2 ^ 24 * b3 + 2 ^ 32 * b4 +
              2 ^ 40 * b5 + 2 ^ 48 * b6 + 2 ^ 56 * b7, r)
      | _ => none
    else none

/-- Length-prefixed byte string, as bincode writes `str`, `bytes` and
the serde forms of `PathBuf`, `DateTime<Utc>` and `Uuid`. -/
def bytesEnc (bs : List Nat) : List Nat :=
  varintEnc bs.length ++ bs

/-- Decode a length-prefixed byte string; fails when fewer bytes remain
than the announced length (as bincode does). -/
def bytesDec (data : List Nat) : Option (List Nat × List Nat) :=
  match varintDec data with
  | none => none
  | some (n, rest) =>
    if n ≤ rest.length then some (rest.take n, rest.drop n) else none

/-- `CommandStart` from src/message.rs; string-like fields carry their
UTF-8 wire bytes, the session id its 16 raw bytes.  Field order is the
declared (serde) order. -/
structure CommandStart where
  command : List Nat
  pwd : List Nat
  session_id : List Nat
  time_stamp : List Nat
  user : List Nat
  hostname : List Nat
  deriving DecidableEq, Repr

/-- `CommandFinished` from src/message.rs; `result` is the u16 exit code. -/
structure CommandFinished where
  session_id : List Nat
  time_stamp : List Nat
  result : Nat
  deriving DecidableEq, Repr

/-- The wire message vocabulary from src/message.rs, variant indices in
declared order (Stop = 0 … CommandFinished = 4). -/
inductive Message where
  | stop
  | disable (sid : List Nat)
  | enable (sid : List Nat)
  | commandStart (cs : CommandStart)
  | commandFinished (cf : CommandFinished)
  deriving DecidableEq, Repr

/-- All values of a modelled byte string are bytes. -/
def bytesOk (bs : List Nat) : Bool :=
  bs.all (fun b => b < 256)

/-- Structural well-formedness of a message as the Rust types guarantee
it: session ids are 16 bytes, the result code fits u16, and every
modelled byte string holds bytes. -/
def messageWf : Message → Bool
  | .stop => true
  | .disable sid => sid.length = 16 && bytesOk sid
  | .enable sid => sid.length = 16 && bytesOk sid
  | .commandStart cs =>
    cs.session_id.length = 16 && bytesOk cs.session_id && bytesOk cs.command
      && bytesOk cs.pwd && bytesOk cs.time_stamp && bytesOk cs.user
      && bytesOk cs.hostname
  | .commandFinished cf =>
    cf.session_id.length = 16 && bytesOk cf.session_id
      && bytesOk cf.time_stamp && cf.result < 2 ^ 16

/-- The client's encoder (`Client::send` in src/client.rs):
`bincode::encode_to_vec(BorrowCompat(message), standard())`. -/
def encodeMessage : Message → List Nat
  | .stop => varintEnc 0
  | .disable sid => varintEnc 1 ++ bytesEnc sid
  | .enable sid => varintEnc 2 ++ bytesEnc sid
  | .commandStart cs =>
    varintEnc 3 ++ bytesEnc cs.command ++ bytesEnc cs.pwd ++
      bytesEnc cs.session_id ++ bytesEnc cs.time_stamp ++
      bytesEnc cs.user ++ bytesEnc cs.hostname
  | .commandFinished cf =>
    varintEnc 4 ++ bytesEnc cf.session_id ++ bytesEnc cf.time_stamp ++
      varintEnc cf.result

/-- The server's decoder (`Server::process` in src/server/mod.rs):
`bincode::decode_from_slice(&data, standard())`.  Trailing bytes are
ignored, exactly as `decode_from_slice` ignores them.  A session id
field must be 16 bytes (`Uuid` deserialization), a result value must
fit u16. -/
def decodeMessage (data : List Nat) : Option Message :=
  match varintDec data with
  | none => none
  | some (tag, r) =>
    if tag = 0 then some .stop
    else if tag = 1 then
      match bytesDec r with
      | some (sid, _) => if sid.length = 16 then some (.disable sid) else none
      | none => none
    else if tag = 2 then
      match bytesDec r with
      | some (sid, _) => if sid.length = 16 then some (.enable sid) else none
      | none => none
    else if tag = 3 then
      match bytesDec r with
      | none => none
      | some (command, r1) =>
        match bytesDec r1 with
        | none => none
        | some (pwd, r2) =>
          match bytesDec r2 with
          | none => none
          | some (sid, r3) =>
            if sid.length = 16 then
              match bytesDec r3 with
              | none => none
              | some (ts, r4) =>
                match bytesDec r4 with
                | none => none
                | some (user, r5) =>
                  match bytesDec r5 with
                  | none => none
                  | some (host, _) =>
                    some (.commandStart ⟨command, pwd, sid, ts, user, host⟩)
            else none
    else if tag = 4 then
      match bytesDec r with
      | none => none
      | some (sid, r1) =>
        if sid.length = 16 then
          match bytesDec r1 with
          | none => none
          | some (ts, r2) =>
            match varintDec r2 with
            | none => none
            | some (res, _) =>
              if res < 2 ^ 16 then some (.commandFinished ⟨sid, ts, res⟩)
              else none
        else none
    else none

/-! ### Codec round-trip lemmas -/

theorem varintEnc_length_pos (n : Nat) : 0 < (varintEnc n).length := by
  unfold varintEnc
  split
  · simp
  · split
    · simp
    · split <;> simp

theorem bytesEnc_length (bs : List Nat) :
    (bytesEnc bs).length = (varintEnc bs.length).length + bs.length := by
  simp [bytesEnc]

theorem varint_rt (n : Nat) (hn : n < 2 ^ 16) (r : List Nat) :
    varintDec (varintEnc n ++ r) = some (n, r) := by
  unfold varintEnc
  by_cases h1 : n < 251
  · simp [h1, varintDec]
  · simp only [if_neg h1, if_pos hn, List.cons_append, varintDec]
    have : ¬ (251 : Nat) < 251 := by omega
    simp only [if_neg this, if_pos rfl]
    have hmod : n % 256 + 256 * (n / 256 % 256) = n := by omega
    simp [hmod]

theorem bytes_rt (bs : List Nat) (h : bs.length < 2 ^ 16) (r : List Nat) :
    bytesDec (bytesEnc bs ++ r) = some (bs, r) := by
  unfold bytesDec bytesEnc
  rw [List.append_assoc, varint_rt bs.length h (bs ++ r)]
  have hle : bs.length ≤ (bs ++ r).length := by simp
  simp [hle, List.take_left' rfl, List.drop_left' rfl]

theorem varintEnc_small {n : Nat} (h : n < 251) : varintEnc n = [n] := by
  simp [varintEnc, h]

theorem varintDec_cons {b : Nat} (hb : b < 251) (r : List Nat) :
    varintDec (b :: r) = some (b, r) := by
  simp [varintDec, hb]

/-- C9.  For every message of the wire vocabulary that is structurally
well formed (16-byte session id, u16 result, byte-valued strings) and
whose encoding fits in the 65,527-byte datagram bound, the server's
decoder inverts the client's encoder: `decode (encode m) = some m`. -/
theorem decode_encode_roundtrip (m : Message) (hwf : messageWf m = true)
    (hlen : (encodeMessage m).length ≤ 65527) :
    decodeMessage (encodeMessage m) = some m := by
  cases m with
  | stop => decide
  | disable sid =>
    simp only [messageWf, Bool.and_eq_true, decide_eq_true_eq] at hwf
    have h16 : sid.length = 16 := by tauto
    have hb := bytes_rt sid (by omega) []
    rw [List.append_nil] at hb
    simp [encodeMessage, decodeMessage, varintEnc_small, varintDec_cons, hb,
      h16]
  | enable sid =>
    simp only [messageWf, Bool.and_eq_true, decide_eq_true_eq] at hwf
    have h16 : sid.length = 16 := by tauto
    have hb := bytes_rt sid (by omega) []
    rw [List.append_nil] at hb
    simp [encodeMessage, decodeMessage, varintEnc_small, varintDec_cons, hb,
      h16]
  | commandStart cs =>
    simp only [messageWf, Bool.and_eq_true, decide_eq_true_eq] at hwf
    have h16 : cs.session_id.length = 16 := by tauto
    have v3 := varintEnc_length_pos 3
    have v1 := varintEnc_length_pos cs.command.length
    have v2 := varintEnc_length_pos cs.pwd.length
    have v4 := varintEnc_length_pos cs.session_id.length
    have v5 := varintEnc_length_pos cs.time_stamp.length
    have v6 := varintEnc_length_pos cs.user.length
    have v7 := varintEnc_length_pos cs.hostname.length
    simp only [encodeMessage, bytesEnc, List.length_append] at hlen
    have hb1 := bytes_rt cs.command (by omega)
    have hb2 := bytes_rt cs.pwd (by omega)
    have hb3 := bytes_rt cs.session_id (by omega)
    have hb4 := bytes_rt cs.time_stamp (by omega)
    have hb5 := bytes_rt cs.user (by omega)
    have hb6 := bytes_rt cs.hostname (by omega) []
    rw [List.append_nil] at hb6
    simp [encodeMessage, decodeMessage, varintEnc_small, varintDec_cons,
      List.append_assoc, hb1, hb2, hb3, hb4, hb5, hb6, h16]
  | commandFinished cf =>
    simp only [messageWf, Bool.and_eq_true, decide_eq_true_eq] at hwf
    have h16 : cf.session_id.length = 16 := by tauto
    have hres : cf.result < 2 ^ 16 := by tauto
    have hb1 := bytes_rt cf.session_id (by omega)
    have v5 := varintEnc_length_pos cf.time_stamp.length
    have v4 := varintEnc_length_pos 4
    have vr := varintEnc_length_pos cf.result
    simp only [encodeMessage, bytesEnc, List.length_append] at hlen
    have hb2 := bytes_rt cf.time_stamp (by omega)
    have hr := varint_rt cf.result hres []
    rw [List.append_nil] at hr
    simp [encodeMessage, decodeMessage, varintEnc_small, varintDec_cons,
      List.append_assoc, hb1, hb2, hr, h16, hres]
    omega

/-- Witness for C9 at a concrete `Disable` message with a 16-byte
session id. -/
theorem decode_encode_roundtrip_witness :
    decodeMessage (encodeMessage (.disable (List.replicate 16 0)))
      = some (.disable (List.replicate 16 0)) :=
  decode_encode_roundtrip (.disable (List.replicate 16 0)) (by decide)
    (by decide)

/-! ## Pending-session database (src/server/db.rs)

The two sled trees are embedded as association structures keyed by the
serialized session id (16 wire bytes, here the raw byte list):

* `entries` : session id → `CommandStart`,
* `disabled_sessions` : session id → flag (presence = disabled).

A sled `insert` overwrites an existing key, `remove` deletes the key
and returns the previous value (`None` when absent).  Each operation
mutates the tree in place; the embedding passes the state explicitly,
so an operation that mutates and then fails returns the mutated state
together with the error — exactly the shape of
`Db::disable_session`, which inserts into `disabled_sessions` before
calling `remove_entry(uuid)?`. -/

/-- Errors of src/server/db.rs that the embedded operations can raise. -/
inductive DbError where
  | entryNotExist
  deriving DecidableEq, Repr

/-- The daemon database: the `entries` tree and the
`disabled_sessions` tree. -/
structure Db where
  entries : List (List Nat × CommandStart)
  disabled : List (List Nat)
  deriving DecidableEq, Repr

/-- The empty database (fresh sled trees). -/
def Db.empty : Db := ⟨[], []⟩

/-- Key lookup in the `entries` tree. -/
def lookupEntry (k : List Nat) (l : List (List Nat × CommandStart)) :
    Option CommandStart :=
  (l.find? (fun p => decide (p.1 = k))).map (·.2)

/-- Key removal in the `entries` tree (sled `remove`). -/
def eraseKey (k : List Nat) (l : List (List Nat × CommandStart)) :
    List (List Nat × CommandStart) :=
  l.filter (fun p => decide (p.1 ≠ k))

/-- Insertion into the `disabled_sessions` tree (sled `insert`;
presence is all that matters). -/
def insertSid (k : List Nat) (s : List (List Nat)) : List (List Nat) :=
  if k ∈ s then s else k :: s

/-- Removal from the `disabled_sessions` tree (sled `remove`). -/
def eraseSid (k : List Nat) (s : List (List Nat)) : List (List Nat) :=
  s.filter (fun x => decide (x ≠ k))

/-- `Db::contains_entry`. -/
def Db.contains_entry (db : Db) (sid : List Nat) : Bool :=
  (lookupEntry sid db.entries).isSome

/-- `Db::is_session_disabled`. -/
def Db.is_session_disabled (db : Db) (sid : List Nat) : Bool :=
  decide (sid ∈ db.disabled)

/-- `Db::add_entry`: insert keyed by the start's session id
(overwrite, as sled `insert` does). -/
def Db.add_entry (db : Db) (entry : CommandStart) : Db :=
  { db with entries := (entry.session_id, entry) ::
      eraseKey entry.session_id db.entries }

/-- `Db::remove_entry`: remove and return the pending start; fails
with `EntryNotExist` when the key is absent (state unchanged, since
sled's remove of an absent key is a no-op). -/
def Db.remove_entry (db : Db) (sid : List Nat) :
    Db × Except DbError CommandStart :=
  match lookupEntry sid db.entries with
  | some v => ({ db with entries := eraseKey sid db.entries }, .ok v)
  | none => (db, .error .entryNotExist)

/-- `Db::disable_session`: insert into `disabled_sessions`, then
`self.remove_entry(uuid)?`.  The insertion precedes the removal, so
the session is disabled even when `remove_entry` fails with
`EntryNotExist`; that error propagates out of the operation. -/
def Db.disable_session (db : Db) (sid : List Nat) :
    Db × Except DbError Unit :=
  let db1 : Db := { db with disabled := insertSid sid db.disabled }
  match db1.remove_entry sid with
  | (db2, .ok _) => (db2, .ok ())
  | (db2, .error e) => (db2, .error e)

/-- `Db::enable_session`: remove from `disabled_sessions`. -/
def Db.enable_session (db : Db) (sid : List Nat) : Db :=
  { db with disabled := eraseSid sid db.disabled }

/-! ## Daemon message handlers (src/server/mod.rs)

`command_start`, `command_finished`, `disable_session` and
`enable_session` are embedded in state-passing style.  A Rust handler
that returns `Err(..)` before reaching any mutating call leaves the
state untouched, so those paths return the input state together with
the error.  Handler errors are logged by the processor loop and never
stop it. -/

/-- The handler errors of src/server/mod.rs reachable in the
embedding. -/
inductive SrvError where
  | sessionCommandAlreadyStarted
  | sessionCommandNotStarted
  | disabledSession (sid : List Nat)
  | removeDbEntry (e : DbError)
  | db (e : DbError)
  | deserializeMessage
  deriving DecidableEq, Repr

/-- Whitespace bytes (ASCII space, tab, line feed, carriage return),
for the trimming performed when an entry is built. -/
def isWsByte (b : Nat) : Bool :=
  b = 32 || b = 9 || b = 10 || b = 13

/-- Strip trailing whitespace bytes. -/
def trimEndBytes (l : List Nat) : List Nat :=
  (l.reverse.dropWhile isWsByte).reverse

/-- Strip surrounding whitespace bytes. -/
def trimBytes (l : List Nat) : List Nat :=
  trimEndBytes (l.dropWhile isWsByte)

/-- The durable record written to the index, fields in the fixed CSV
order of the spec (`time_finished, time_start, hostname, command, pwd,
result, session_id, user`), string fields as wire bytes.  Modelled from
the spec: the converged `Entry` struct is not under src/ (src/entry.rs
holds an older revision without `hostname`/`time_finished`); the field
set and order follow spec §3 and the integration test
tests/client_server_intigration.rs. -/
structure SEntry where
  time_finished : List Nat
  time_start : List Nat
  hostname : List Nat
  command : List Nat
  pwd : List Nat
  result : Nat
  session_id : List Nat
  user : List Nat
  deriving DecidableEq, Repr

/-- Modelled from the spec: `Entry::from_messages` is not under src/
(only its callers are).  Spec §4.8: `command` is the start's command
stripped of trailing whitespace (which subsumes a trailing newline
sequence); `user` and `hostname` are trimmed of surrounding
whitespace; times, `pwd`, `result` and `session_id` are taken
verbatim from the pair. -/
def SEntry.from_messages (start : CommandStart) (finish : CommandFinished) :
    SEntry :=
  { time_finished := finish.time_stamp
    time_start := start.time_stamp
    hostname := trimBytes start.hostname
    command := trimEndBytes start.command
    pwd := start.pwd
    result := finish.result
    session_id := start.session_id
    user := trimBytes start.user }

/-- The daemon-side view of `Store::add` (src/store/mod.rs): an entry
with an empty command is silently ignored, otherwise the record is
appended.  The file layout of the store is modelled separately below;
here only the sequence of appended records matters. -/
def storeAppend (rows : List SEntry) (e : SEntry) : List SEntry :=
  if e.command.isEmpty then rows else rows ++ [e]

/-- `Server::command_start`: reject when the session is already
pending, then when it is disabled; otherwise insert the start. -/
def commandStart (db : Db) (data : CommandStart) : Db × Option SrvError :=
  if db.contains_entry data.session_id then
    (db, some .sessionCommandAlreadyStarted)
  else if db.is_session_disabled data.session_id then
    (db, some (.disabledSession data.session_id))
  else
    (db.add_entry data, none)

/-- `Server::command_finished`: reject when the session is disabled,
then when no start is pending; otherwise remove the start, build the
entry and append it to the store. -/
def commandFinished (db : Db) (rows : List SEntry) (data : CommandFinished) :
    Db × List SEntry × Option SrvError :=
  if db.is_session_disabled data.session_id then
    (db, rows, some (.disabledSession data.session_id))
  else if ¬ db.contains_entry data.session_id then
    (db, rows, some .sessionCommandNotStarted)
  else
    match db.remove_entry data.session_id with
    | (db2, .ok start) =>
      (db2, storeAppend rows (SEntry.from_messages start data), none)
    | (db2, .error e) => (db2, rows, some (.removeDbEntry e))

/-- `Server::disable_session`: delegate to `Db::disable_session`,
surfacing its error (wrapped as `Error::Db` by the `?` conversion). -/
def disableSession (db : Db) (sid : List Nat) : Db × Option SrvError :=
  match db.disable_session sid with
  | (db2, .ok _) => (db2, none)
  | (db2, .error e) => (db2, some (.db e))

/-- `Server::enable_session`. -/
def enableSession (db : Db) (sid : List Nat) : Db × Option SrvError :=
  (db.enable_session sid, none)

/-- The state the processor thread owns: the database and the sequence
of records appended to the index store. -/
structure SrvState where
  db : Db
  rows : List SEntry
  deriving DecidableEq, Repr

/-- Dispatch of one decoded message, as in `Server::process`.  `Stop`
only touches the stop flag and the self-datagram path, neither of
which is state here.  The returned error is what the loop logs. -/
def stepMessage (st : SrvState) (m : Message) : SrvState × Option SrvError :=
  match m with
  | .stop => (st, none)
  | .commandStart cs =>
    let r := commandStart st.db cs
    ({ st with db := r.1 }, r.2)
  | .commandFinished cf =>
    let r := commandFinished st.db st.rows cf
    ({ db := r.1, rows := r.2.1 }, r.2.2)
  | .disable sid =>
    let r := disableSession st.db sid
    ({ st with db := r.1 }, r.2)
  | .enable sid =>
    let r := enableSession st.db sid
    ({ st with db := r.1 }, r.2)

/-- One iteration of `Server::process` on a raw datagram: decode, then
dispatch; a decode failure is logged and the state is unchanged. -/
def processDatagram (st : SrvState) (data : List Nat) : SrvState :=
  match decodeMessage data with
  | none => st
  | some m => (stepMessage st m).1

/-- The drain loop of `Server::start_processor`: after the main loop
breaks on the stop flag, `while !data_receiver.is_empty()` keeps
receiving and processing until the channel is empty.  The channel
content is the list of accepted datagrams in arrival order; the second
component returned is the trace of datagrams actually dequeued and
processed. -/
def drainLoop (st : SrvState) : List (List Nat) → SrvState × List (List Nat)
  | [] => (st, [])
  | d :: ds =>
    let r := drainLoop (processDatagram st d) ds
    (r.1, d :: r.2)

/-- A whole processor run from the empty state over a list of decoded
messages, for stating state invariants. -/
def runMessages (msgs : List Message) : SrvState :=
  msgs.foldl (fun st m => (stepMessage st m).1) ⟨Db.empty, []⟩

/-- No session id is both a key of the pending `entries` tree and a
member of the `disabled_sessions` tree. -/
def noOverlap (db : Db) : Bool :=
  db.entries.all (fun p => decide (p.1 ∉ db.disabled))

/-! ### Database and handler theorems -/

theorem mem_insertSid (k : List Nat) (s : List (List Nat)) :
    k ∈ insertSid k s := by
  unfold insertSid
  split
  · assumption
  · exact List.mem_cons_self k s

theorem mem_insertSid_iff (x k : List Nat) (s : List (List Nat)) :
    x ∈ insertSid k s ↔ x = k ∨ x ∈ s := by
  unfold insertSid
  split
  · constructor
    · exact Or.inr
    · rintro (rfl | hx) <;> assumption
  · exact List.mem_cons

theorem lookupEntry_eraseKey (k : List Nat)
    (l : List (List Nat × CommandStart)) :
    lookupEntry k (eraseKey k l) = none := by
  have hfind : (eraseKey k l).find? (fun p => decide (p.1 = k)) = none := by
    rw [List.find?_eq_none]
    intro p hp
    have := (List.mem_filter.mp hp).2
    simp only [decide_eq_true_eq] at this ⊢
    exact this
  simp [lookupEntry, hfind]

/-- Counterexample to C1 as stated: on the empty database (no pending
start for the session), `Db::disable_session` does not succeed — it
returns the `EntryNotExist` error. -/
theorem disable_session_absent_errors :
    (Db.empty.disable_session (List.replicate 16 0)).2
      = Except.error DbError.entryNotExist := by
  rfl

/-- C1 (amended).  `Db::disable_session` always adds the session id to
the disabled set and leaves it with no pending start; it succeeds
exactly when a pending start existed, and returns the `EntryNotExist`
error (with the session nevertheless disabled) when none did. -/
theorem disable_session_spec (db : Db) (sid : List Nat) :
    (db.disable_session sid).1.is_session_disabled sid = true
      ∧ (db.disable_session sid).1.contains_entry sid = false
      ∧ ((db.disable_session sid).2 = Except.ok ()
          ↔ db.contains_entry sid = true) := by
  unfold Db.disable_session Db.remove_entry
  rcases hl : lookupEntry sid db.entries with _ | v
  · simp only [hl]
    refine ⟨?_, ?_, ?_⟩
    · simp [Db.is_session_disabled, mem_insertSid]
    · simp [Db.contains_entry, hl]
    · simp [Db.contains_entry, hl]
  · simp only [hl]
    refine ⟨?_, ?_, ?_⟩
    · simp [Db.is_session_disabled, mem_insertSid]
    · simp [Db.contains_entry, lookupEntry_eraseKey]
    · simp [Db.contains_entry, hl]

/-- C10.  After `Db::disable_session` returns — with success or with
the `EntryNotExist` error raised when no start is pending — the session
id is in the disabled set (the insertion into `disabled_sessions`
precedes the pending-entry removal): the disabled tree is exactly the
input tree with the id inserted, the error occurs precisely when no
start was pending, and a subsequent `CommandStart` for the session is
rejected as disabled. -/
theorem disable_session_not_atomic (db : Db) (sid : List Nat)
    (cs : CommandStart) (hcs : cs.session_id = sid) :
    (db.disable_session sid).1.is_session_disabled sid = true
      ∧ (db.disable_session sid).1.disabled = insertSid sid db.disabled
      ∧ ((db.disable_session sid).2 = Except.error DbError.entryNotExist
          ↔ db.contains_entry sid = false)
      ∧ commandStart (db.disable_session sid).1 cs
          = ((db.disable_session sid).1, some (.disabledSession sid)) := by
  have hdis : (db.disable_session sid).1.is_session_disabled sid = true := by
    unfold Db.disable_session Db.remove_entry
    rcases hl : lookupEntry sid db.entries with _ | v <;>
      simp [hl, Db.is_session_disabled, mem_insertSid]
  have hcon : (db.disable_session sid).1.contains_entry sid = false := by
    unfold Db.disable_session Db.remove_entry
    rcases hl : lookupEntry sid db.entries with _ | v <;>
      simp [hl, Db.contains_entry, lookupEntry_eraseKey]
  refine ⟨hdis, ?_, ?_, ?_⟩
  · unfold Db.disable_session Db.remove_entry
    rcases hl : lookupEntry sid db.entries with _ | v <;> simp [hl]
  · unfold Db.disable_session Db.remove_entry
    rcases hl : lookupEntry sid db.entries with _ | v <;>
      simp [hl, Db.contains_entry]
  · unfold commandStart
    rw [hcs, hcon, hdis]
    simp

/-- Witness for C10 at the empty database and a concrete start
message. -/
theorem disable_session_not_atomic_witness :
    (Db.empty.disable_session (List.replicate 16 0)).1.is_session_disabled
        (List.replicate 16 0) = true
      ∧ commandStart (Db.empty.disable_session (List.replicate 16 0)).1
          ⟨[108, 115], [47], List.replicate 16 0, [48], [117], [104]⟩
        = ((Db.empty.disable_session (List.replicate 16 0)).1,
            some (.disabledSession (List.replicate 16 0))) := by
  have h := disable_session_not_atomic Db.empty (List.replicate 16 0)
    ⟨[108, 115], [47], List.replicate 16 0, [48], [117], [104]⟩ rfl
  exact ⟨h.1, h.2.2.2⟩

/-- C5.  When the session of a `CommandFinished` message is not
disabled and has no pending start, the handler returns the
`SessionCommandNotStarted` error, appends nothing to the store, and
leaves the database (pending tree and disabled tree) unchanged. -/
theorem command_finished_not_started (db : Db) (rows : List SEntry)
    (data : CommandFinished)
    (hdis : db.is_session_disabled data.session_id = false)
    (hcon : db.contains_entry data.session_id = false) :
    commandFinished db rows data
      = (db, rows, some .sessionCommandNotStarted) := by
  unfold commandFinished
  rw [hdis, hcon]
  simp

/-- Witness for C5 at the empty database. -/
theorem command_finished_not_started_witness :
    commandFinished Db.empty [] ⟨List.replicate 16 0, [48], 0⟩
      = (Db.empty, [], some .sessionCommandNotStarted) :=
  command_finished_not_started Db.empty [] ⟨List.replicate 16 0, [48], 0⟩
    (by decide) (by decide)

/-! ### Session-state invariant (C6) and drain discipline (C7) -/

/-- Propositional form of `noOverlap`. -/
def InvP (db : Db) : Prop :=
  ∀ p ∈ db.entries, p.1 ∉ db.disabled

theorem noOverlap_iff (db : Db) : noOverlap db = true ↔ InvP db := by
  simp [noOverlap, InvP, List.all_eq_true]

theorem invP_commandStart (db : Db) (cs : CommandStart) (h : InvP db) :
    InvP (commandStart db cs).1 := by
  unfold commandStart
  split
  · exact h
  · split
    · exact h
    · rename_i hcon hdis
      intro p hp
      simp only [Db.add_entry, List.mem_cons] at hp
      rcases hp with rfl | hp
      · simpa [Db.is_session_disabled] using hdis
      · exact h p (List.mem_filter.mp hp).1

theorem invP_commandFinished (db : Db) (rows : List SEntry)
    (cf : CommandFinished) (h : InvP db) :
    InvP (commandFinished db rows cf).1 := by
  unfold commandFinished
  split
  · exact h
  · split
    · exact h
    · unfold Db.remove_entry
      rcases hl : lookupEntry cf.session_id db.entries with _ | v
      · simpa [hl] using h
      · simp only [hl]
        intro p hp
        exact h p (List.mem_filter.mp hp).1

theorem invP_disableSession (db : Db) (sid : List Nat) (h : InvP db) :
    InvP (disableSession db sid).1 := by
  unfold disableSession Db.disable_session Db.remove_entry
  rcases hl : lookupEntry sid db.entries with _ | v
  · simp only [hl]
    intro p hp
    rw [mem_insertSid_iff]
    rintro (rfl | hmem)
    · rcases hf : db.entries.find? (fun q => decide (q.1 = p.1)) with _ | q
      · rw [List.find?_eq_none] at hf
        exact absurd (by simp) (hf p hp)
      · simp [lookupEntry, hf] at hl
    · exact h p hp hmem
  · simp only [hl]
    intro p hp
    have hp' := List.mem_filter.mp hp
    rw [mem_insertSid_iff]
    rintro (heq | hmem)
    · have := hp'.2
      simp only [decide_eq_true_eq] at this
      exact this heq
    · exact h p hp'.1 hmem

theorem invP_enableSession (db : Db) (sid : List Nat) (h : InvP db) :
    InvP (enableSession db sid).1 := by
  unfold enableSession Db.enable_session
  intro p hp hmem
  exact h p hp (List.mem_filter.mp hmem).1

theorem invP_stepMessage (st : SrvState) (m : Message) (h : InvP st.db) :
    InvP (stepMessage st m).1.db := by
  cases m with
  | stop => exact h
  | commandStart cs => exact invP_commandStart st.db cs h
  | commandFinished cf => exact invP_commandFinished st.db st.rows cf h
  | disable sid => exact invP_disableSession st.db sid h
  | enable sid => exact invP_enableSession st.db sid h

theorem invP_foldl (msgs : List Message) (st : SrvState) (h : InvP st.db) :
    InvP ((msgs.foldl (fun st m => (stepMessage st m).1) st).db) := by
  induction msgs generalizing st with
  | nil => exact h
  | cons m ms ih => exact ih _ (invP_stepMessage st m h)

/-- C6.  Starting from the empty daemon state, after any sequence of
message handlers (`command_start`, `command_finished`,
`disable_session`, `enable_session`, and `Stop`) completes, no session
id is simultaneously a key of the pending `entries` tree and a member
of the `disabled_sessions` tree. -/
theorem pending_disjoint_disabled (msgs : List Message) :
    noOverlap (runMessages msgs).db = true := by
  rw [noOverlap_iff]
  exact invP_foldl msgs ⟨Db.empty, []⟩ (by intro p hp; cases hp)

/-- C7.  The drain loop entered once the processor has observed the
stop flag dequeues and processes, in arrival order, exactly the
datagrams that were accepted into the channel, and exits only when the
channel is empty: the processed trace is the whole channel content and
the final state is the fold of `processDatagram` over it (handler and
decode failures are logged inside `processDatagram` and never stop the
drain). -/
theorem drain_processes_everything (st : SrvState) (q : List (List Nat)) :
    (drainLoop st q).1 = q.foldl processDatagram st
      ∧ (drainLoop st q).2 = q := by
  induction q generalizing st with
  | nil => exact ⟨rfl, rfl⟩
  | cons d ds ih =>
    have h := ih (processDatagram st d)
    simp [drainLoop, h.1, h.2]

/-! ## Index store and filter (src/store/mod.rs, src/store/filter.rs)

The CLI query and write paths work on text, so Rust strings are
embedded as `List Char` here.  Rust's `str::split(sep)` keeps empty
segments (so `"".split('|')` is `[""]`); `split_whitespace` is split
on the Unicode `White_Space` class with empty segments removed.
`Path` values are embedded as their component lists, since Rust's
`Path::starts_with` and `==` compare whole components. -/

/-- Rust `str::split` on a character predicate, keeping empty
segments. -/
def splitOnP (p : Char → Bool) : List Char → List (List Char)
  | [] => [[]]
  | c :: cs =>
    if p c then [] :: splitOnP p cs
    else
      match splitOnP p cs with
      | [] => [[c]]
      | s :: ss => (c :: s) :: ss

/-- The Unicode `White_Space` class, as Rust's `char::is_whitespace`
recognizes it. -/
def rustIsWhitespace (c : Char) : Bool :=
  [' ', '\t', '\n', '\u000B', '\u000C', '\r', '\u0085', '\u00A0',
   '\u1680', '\u2000', '\u2001', '\u2002', '\u2003', '\u2004', '\u2005',
   '\u2006', '\u2007', '\u2008', '\u2009', '\u200A', '\u2028', '\u2029',
   '\u202F', '\u205F', '\u3000'].any (fun w => w = c)

/-- `pipe_command.split_whitespace().next()`: the first
whitespace-delimited token of a segment, if any. -/
def firstToken (s : List Char) : Option (List Char) :=
  ((splitOnP rustIsWhitespace s).filter (fun t => !t.isEmpty)).head?

/-- The entry record as the filter and query paths see it
(spec §3 field order); times and the session id are opaque scalars
here, the path a component list. -/
structure FEntry where
  time_finished : Nat
  time_start : Nat
  hostname : List Char
  command : List Char
  pwd : List (List Char)
  result : Nat
  session_id : Nat
  user : List Char
  deriving DecidableEq, Repr

/-- `entry.session_id.to_string()` stand-in: an injective text form of
the opaque session id scalar. -/
def sidText (n : Nat) : List Char :=
  Nat.toDigits 10 n

/-- The filter record of src/store/filter.rs.  Regexes are embedded as
their match predicates. -/
structure Filter where
  hostname : Option (List Char) := none
  directory : Option (List (List Char)) := none
  command : Option (List Char) := none
  no_subdirs : Bool := false
  command_text : Option (List Char → Bool) := none
  command_text_excluded : Option (List Char → Bool) := none
  count : Nat := 0
  session : Option (List Char → Bool) := none
  failed : Bool := false
  find_status : Option Nat := none

/-- `Filter::default()` (`#[derive(Default)]`). -/
def Filter.default : Filter := {}

/-- `Option::is_none_or`. -/
def isNoneOr (o : Option α) (f : α → Bool) : Bool :=
  match o with
  | none => true
  | some x => f x

/-- `Filter::filter_command`: split the command on `'|'`; match if any
segment's first whitespace-delimited token equals the filter
literal. -/
def Filter.filter_command (entry_command command : List Char) : Bool :=
  (splitOnP (fun c => c = '|') entry_command).any
    (fun pipe_command => firstToken pipe_command == some command)

/-- `Filter::filter_entries`: the predicate chain in source order
(command, directory, command_text, command_text_excluded, session,
failed, find_status), then the `count` truncation keeping the last
`count` elements in order. -/
def Filter.filter_entries (f : Filter) (entries : List FEntry) :
    List FEntry :=
  let filtered :=
    ((((((entries.filter (fun e =>
        isNoneOr f.command (fun c => Filter.filter_command e.command c))).filter
      (fun e => isNoneOr f.directory (fun dir =>
        if f.no_subdirs then decide (e.pwd = dir)
        else dir.isPrefixOf e.pwd))).filter
      (fun e => isNoneOr f.command_text (fun rx => rx e.command))).filter
      (fun e => isNoneOr f.command_text_excluded
        (fun rx => !rx e.command))).filter
      (fun e => isNoneOr f.session
        (fun rx => rx (sidText e.session_id)))).filter
      (fun e => !f.failed || e.result == 0)).filter
      (fun e =>
        (match f.find_status with
         | none => none
         | some fs => if fs == e.result then none else some ()).isNone)
  if f.count > 0 then ((filtered.reverse).take f.count).reverse
  else filtered

/-- Rust `PathBuf::join` on text paths: an absolute right operand
replaces the base, otherwise a separator is inserted as needed. -/
def pathJoin (base s : List Char) : List Char :=
  if s.head? = some '/' then s
  else if base.getLast? = some '/' then base ++ s
  else base ++ '/' :: s

/-- The write path's file name (src/store/mod.rs `Store::add_entry`):
`folder_path.join(format!("{}.csv", hostname))` — concatenation, not
extension replacement. -/
def storeFilePath (dataDir hostname : List Char) : List Char :=
  pathJoin dataDir (hostname ++ ".csv".data)

/-- Split a name at its last dot: `some (stem, ext)` with the dot
excluded from both, `none` when there is no dot. -/
def splitLastDot : List Char → Option (List Char × List Char)
  | [] => none
  | c :: cs =>
    match splitLastDot cs with
    | some (pre, post) => some (c :: pre, post)
    | none => if c = '.' then some ([], cs) else none

/-- Rust `Path::file_stem`: the name up to its last dot, except that a
leading dot with no later dot marks a hidden file without extension. -/
def fileStem (name : List Char) : List Char :=
  match splitLastDot name with
  | some ([], _) => name
  | some (pre, _) => pre
  | none => name

/-- Rust `Path::with_extension` on text paths — the rejected helper the
source's own test (`test::dot_filename_with_extension`) rules out for
hostnames with dots. -/
def setExtension (path ext : List Char) : List Char :=
  let comps := splitOnP (fun c => c = '/') path
  List.intercalate ['/']
    (comps.dropLast ++ [fileStem (comps.getLastD []) ++ '.' :: ext])

/-- One per-host index file: whether the header row has been written,
and the appended records in order. -/
structure IndexFile where
  header : Bool
  rows : List FEntry
  deriving DecidableEq, Repr

/-- The data directory: per-path files. -/
def FS := List (List Char × IndexFile)

instance : DecidableEq FS := by
  unfold FS
  infer_instance

/-- `file_path.exists()` / reading a file of the data directory. -/
def fsLookup (path : List Char) (fs : FS) : Option IndexFile :=
  (fs.find? (fun p => decide (p.1 = path))).map (·.2)

/-- Writing a file of the data directory. -/
def fsUpdate (path : List Char) (file : IndexFile) (fs : FS) : FS :=
  (path, file) :: fs.filter (fun p => decide (p.1 ≠ path))

/-- `Store::add_entry` (src/store/mod.rs): compute the per-host path,
open append-or-create, write the header iff the file did not exist,
append one record. -/
def storeAddEntry (dataDir : List Char) (fs : FS) (e : FEntry) : FS :=
  let path := storeFilePath dataDir e.hostname
  match fsLookup path fs with
  | some file => fsUpdate path { file with rows := file.rows ++ [e] } fs
  | none => fsUpdate path { header := true, rows := [e] } fs

/-- The store-level errors (all I/O; unreachable in the embedding). -/
inductive StoreError where
  | createIndexFolder
  | openIndexFile
  | serializeEntry
  deriving DecidableEq, Repr

/-- `Store::add` (src/store/mod.rs): an entry with an empty command is
silently ignored; otherwise delegate to `add_entry`. -/
def storeAdd (dataDir : List Char) (fs : FS) (e : FEntry) :
    Except StoreError FS :=
  if e.command.isEmpty then .ok fs
  else .ok (storeAddEntry dataDir fs e)

/-! ### Filter and store theorems -/

theorem mem_of_count_truncation {α : Type} {l : List α} {e : α} {n : Nat}
    (he : e ∈ (if n > 0 then ((l.reverse).take n).reverse else l)) :
    e ∈ l := by
  split at he
  · have h1 := List.mem_reverse.mp he
    have h2 := List.mem_of_mem_take h1
    exact List.mem_reverse.mp h2
  · exact he

/-- C2.  With the `failed` option set, `filter_entries` keeps only
entries whose `result` is 0 whatever the other options are, and with
all other options at their defaults it keeps exactly those entries. -/
theorem filter_failed_keeps_result_zero (f : Filter) (l : List FEntry)
    (hf : f.failed = true) :
    (∀ e ∈ f.filter_entries l, e.result = 0)
      ∧ Filter.filter_entries { Filter.default with failed := true } l
          = l.filter (fun e => e.result == 0) := by
  constructor
  · intro e he
    simp only [Filter.filter_entries] at he
    have he' := mem_of_count_truncation he
    have h7 := List.mem_filter.mp he'
    have h6 := List.mem_filter.mp h7.1
    have hp := h6.2
    rw [hf] at hp
    simpa using hp
  · simp [Filter.filter_entries, Filter.default, isNoneOr]

/-- Witness for C2: a concrete successful entry survives a filter with
`failed` set. -/
theorem filter_failed_keeps_result_zero_witness :
    FEntry.result ⟨0, 0, [], "ls".data, [], 0, 1, []⟩ = 0 :=
  (filter_failed_keeps_result_zero { Filter.default with failed := true }
      [⟨0, 0, [], "ls".data, [], 0, 1, []⟩] rfl).1
    ⟨0, 0, [], "ls".data, [], 0, 1, []⟩ (by decide)

/-- C3.  The command filter matches exactly when some `'|'`-separated
segment of the entry's command has the filter literal as its first
whitespace-delimited token; concretely, `echo x | tr -d ' '` matches
the literal `tr` and `echo 'tr'` does not. -/
theorem filter_command_pipe_rule :
    (∀ (c w : List Char),
        Filter.filter_command c w = true ↔
          ∃ seg ∈ splitOnP (fun ch => ch = '|') c, firstToken seg = some w)
      ∧ Filter.filter_command
          ("echo x | tr -d ".data ++ [Char.ofNat 39, ' ', Char.ofNat 39])
          "tr".data = true
      ∧ Filter.filter_command
          ("echo ".data ++ [Char.ofNat 39, 't', 'r', Char.ofNat 39])
          "tr".data = false := by
  refine ⟨?_, by decide, by decide⟩
  intro c w
  simp [Filter.filter_command, List.any_eq_true]

/-- C4.  The index write path builds the per-host file name by string
concatenation: for every data directory and hostname the target path
ends in `<hostname>.csv`; for the dotted hostname `a.b.c` the path
ends in `a.b.c.csv` and not in `a.b.csv`, unlike the rejected
extension-replacement helper, which would produce `/data/a.b.csv`. -/
theorem store_path_concatenation :
    (∀ (dataDir h : List Char),
        (h ++ ".csv".data) <:+ storeFilePath dataDir h)
      ∧ storeFilePath "/data".data "a.b.c".data = "/data/a.b.c.csv".data
      ∧ ¬ ("a.b.csv".data <:+ storeFilePath "/data".data "a.b.c".data)
      ∧ setExtension (pathJoin "/data".data "a.b.c".data) "csv".data
          = "/data/a.b.csv".data
      ∧ setExtension (pathJoin "/data".data "a.b.c".data) "csv".data
          ≠ storeFilePath "/data".data "a.b.c".data := by
  refine ⟨?_, by decide, by decide, by decide, by decide⟩
  intro dd h
  unfold storeFilePath pathJoin
  split
  · exact List.suffix_refl _
  · split
    · exact List.suffix_append _ _
    · have heq : dd ++ '/' :: (h ++ ".csv".data)
          = (dd ++ ['/']) ++ (h ++ ".csv".data) := by simp
      rw [heq]
      exact List.suffix_append _ _

/-- C8.  `Store::add` on an entry whose command is empty succeeds and
leaves the data directory untouched: no file created, no header
written, no row appended. -/
theorem store_add_empty_command (dataDir : List Char) (fs : FS) (e : FEntry)
    (h : e.command = []) :
    storeAdd dataDir fs e = .ok fs := by
  simp [storeAdd, h]

/-- Witness for C8 on an empty data directory. -/
theorem store_add_empty_command_witness :
    storeAdd "/data".data ([] : FS) ⟨0, 0, "h".data, [], [], 0, 1, "u".data⟩
      = .ok ([] : FS) :=
  store_add_empty_command "/data".data ([] : FS)
    ⟨0, 0, "h".data, [], [], 0, 1, "u".data⟩ rfl

end Hstdb
